import Mathlib

/-!
Shallow embedding of the xfsgo account-state layer (`state.StateDB`,
`state.stateObject`, the account-record codec) for verification.

Go heap effects (shared `*big.Int` cells, shared `*stateObject` instances,
`*avlmerkle.Tree` handles) are modelled by an explicit `World` record holding
addressable cells; pointers are natural-number cell ids.

External collaborators (`xfsgo/avlmerkle`, `xfsgo/common`,
`xfsgo/common/ahash`) are not under `src/`; those parts are modelled from the
spec and are marked as such in the corresponding doc comments.
-/

namespace XfsState

/-- Byte strings; Go `[]byte`.  Entries are intended to be `< 256`. -/
abbrev Bytes := List Nat

/-- Account addresses; Go `common.Address` viewed as its raw bytes. -/
abbrev Addr := List Nat

/-- Zero hash; Go `common.HashZ` (32 zero bytes). -/
def hashZ : Bytes := List.replicate 32 0

/-- Modelled from the spec: `common.Bytes2Hash` (not in src); fits arbitrary
bytes into a 32-byte hash (truncate or zero-pad). -/
def bytes2Hash (b : Bytes) : Bytes :=
  b.take 32 ++ List.replicate (32 - b.length) 0

/-! ### Association lists (Go maps / heaps) -/

/-- Lookup in an association list (Go map read). -/
def alookup {κ α : Type} [DecidableEq κ] : List (κ × α) → κ → Option α
  | [], _ => none
  | (k', v) :: t, k => if k = k' then some v else alookup t k

/-- Insert-or-replace in an association list (Go map write). -/
def aset {κ α : Type} [DecidableEq κ] : List (κ × α) → κ → α → List (κ × α)
  | [], k, v => [(k, v)]
  | (k', v') :: t, k, v =>
    if k = k' then (k, v) :: t else (k', v') :: aset t k v

theorem alookup_aset_self {κ α : Type} [DecidableEq κ]
    (l : List (κ × α)) (k : κ) (v : α) : alookup (aset l k v) k = some v := by
  induction l with
  | nil => simp [aset, alookup]
  | cons h t ih =>
    obtain ⟨k', v'⟩ := h
    by_cases hk : k = k' <;> simp [aset, alookup, hk, ih]

theorem alookup_aset_ne {κ α : Type} [DecidableEq κ]
    (l : List (κ × α)) (k k' : κ) (v : α) (hne : k' ≠ k) :
    alookup (aset l k v) k' = alookup l k' := by
  induction l with
  | nil => simp [aset, alookup, hne]
  | cons h t ih =>
    obtain ⟨k0, v0⟩ := h
    by_cases hk : k = k0
    · subst hk; simp [aset, alookup, hne]
    · by_cases hk' : k' = k0 <;> simp [aset, alookup, hk, hk', ih]

/-- Keys of an association list. -/
def akeys {κ α : Type} (l : List (κ × α)) : List κ := l.map Prod.fst

theorem length_aset_notMem {κ α : Type} [DecidableEq κ]
    (l : List (κ × α)) (k : κ) (v : α) (h : k ∉ akeys l) :
    (aset l k v).length = l.length + 1 := by
  induction l with
  | nil => simp [aset]
  | cons hd t ih =>
    obtain ⟨k0, v0⟩ := hd
    simp only [akeys, List.map_cons, List.mem_cons] at h
    push_neg at h
    simp [aset, h.1, ih (by simpa [akeys] using h.2)]

theorem length_aset_ge {κ α : Type} [DecidableEq κ]
    (l : List (κ × α)) (k : κ) (v : α) :
    l.length ≤ (aset l k v).length := by
  induction l with
  | nil => simp [aset]
  | cons hd t ih =>
    obtain ⟨k0, v0⟩ := hd
    by_cases hk : k = k0 <;> simp [aset, hk] <;> omega

theorem akeys_aset {κ α : Type} [DecidableEq κ]
    (l : List (κ × α)) (k k' : κ) (v : α) :
    (k' ∈ akeys (aset l k v)) ↔ (k' = k ∨ k' ∈ akeys l) := by
  induction l with
  | nil => simp [aset, akeys]
  | cons hd t ih =>
    obtain ⟨k0, v0⟩ := hd
    by_cases hk : k = k0
    · subst hk
      simp [aset, akeys]
    · simp [aset, hk, akeys] at ih ⊢
      tauto

/-! ### Decimal and hexadecimal character codecs

These model Go `math/big.Int.Text(10)` / `SetString(_, 10)` and
`encoding/hex.EncodeToString` / `DecodeString` on byte slices. -/

/-- Decimal digit character (`0`–`9`). -/
def mkDigit (d : Nat) : Char := Char.ofNat (48 + d)

/-- Numeric value of a decimal digit character. -/
def digitVal (c : Char) : Nat := c.toNat - 48

/-- Whether a character is a decimal digit. -/
def isDigit (c : Char) : Bool := 48 ≤ c.toNat && c.toNat ≤ 57

theorem digitVal_mkDigit {d : Nat} (h : d < 10) : digitVal (mkDigit d) = d := by
  interval_cases d <;> decide

theorem isDigit_mkDigit {d : Nat} (h : d < 10) : isDigit (mkDigit d) = true := by
  interval_cases d <;> decide

theorem mkDigit_ne_comma {d : Nat} (h : d < 10) : mkDigit d ≠ ',' := by
  interval_cases d <;> decide

theorem mkDigit_ne_eq {d : Nat} (h : d < 10) : mkDigit d ≠ '=' := by
  interval_cases d <;> decide

/-- Base-10 text of a natural number, as Go `big.Int.Text(10)` renders a
non-negative value. -/
def natText (n : Nat) : List Char :=
  if n = 0 then [mkDigit 0] else ((Nat.digits 10 n).reverse.map mkDigit)

/-- Parse an unsigned decimal digit string (no sign, at least one digit). -/
def parseDigits (s : List Char) : Option Nat :=
  if s ≠ [] ∧ s.all isDigit then
    some (Nat.ofDigits 10 ((s.map digitVal).reverse))
  else none

/-- Parse a base-10 integer with optional leading minus sign, as Go
`big.Int.SetString(_, 10)` accepts the strings `Text(10)` produces. -/
def parseInt (s : List Char) : Option Int :=
  if s ≠ [] ∧ s.head! = '-' then
    match parseDigits s.tail with
    | some n => some (-(n : Int))
    | none => none
  else
    match parseDigits s with
    | some n => some ((n : Int))
    | none => none

theorem natText_ne_nil (n : Nat) : natText n ≠ [] := by
  unfold natText
  by_cases h : n = 0
  · simp [h]
  · simp only [h, if_false]
    intro hc
    rw [List.map_eq_nil_iff, List.reverse_eq_nil_iff] at hc
    exact h (Nat.digits_eq_nil_iff_eq_zero.mp hc)

theorem natText_all_digits (n : Nat) : (natText n).all isDigit = true := by
  unfold natText
  by_cases h : n = 0
  · simp [h, isDigit, mkDigit]
  · simp only [h, if_false, List.all_eq_true]
    intro c hc
    simp only [List.mem_map, List.mem_reverse] at hc
    obtain ⟨d, hd, rfl⟩ := hc
    exact isDigit_mkDigit (Nat.digits_lt_base (by norm_num) hd)

theorem parseDigits_natText (n : Nat) : parseDigits (natText n) = some n := by
  unfold parseDigits
  rw [if_pos ⟨natText_ne_nil n, natText_all_digits n⟩]
  congr 1
  unfold natText
  by_cases h : n = 0
  · simp [h, digitVal, mkDigit, Nat.ofDigits]
  · simp only [h, if_false, List.map_map, List.map_reverse, List.reverse_reverse]
    have : ∀ l : List Nat, (∀ d ∈ l, d < 10) →
        l.map (digitVal ∘ mkDigit) = l := by
      intro l hl
      induction l with
      | nil => rfl
      | cons a t ih =>
        simp only [List.map_cons, Function.comp_apply,
          digitVal_mkDigit (hl a (by simp))]
        rw [ih (fun d hd => hl d (by simp [hd]))]
    rw [this _ (fun d hd => Nat.digits_lt_base (by norm_num) hd),
      Nat.ofDigits_digits]

theorem parseInt_natText (n : Nat) : parseInt (natText n) = some (n : Int) := by
  have hall := natText_all_digits n
  have hne := natText_ne_nil n
  unfold parseInt
  rw [if_neg]
  · rw [parseDigits_natText]
  · rintro ⟨h1, h2⟩
    cases hx : natText n with
    | nil => exact hne hx
    | cons c rest =>
      rw [hx] at h2 hall
      simp only [List.head!_cons] at h2
      simp only [List.all_cons, Bool.and_eq_true] at hall
      rw [h2] at hall
      exact absurd hall.1 (by decide)

/-- Hexadecimal digit character (lowercase), as Go `hex.EncodeToString`. -/
def hexDigitChar (d : Nat) : Char :=
  if d < 10 then Char.ofNat (48 + d) else Char.ofNat (87 + d)

/-- Numeric value of a hexadecimal digit character, as Go `hex.DecodeString`
accepts (digits, lowercase and uppercase letters). -/
def hexVal (c : Char) : Option Nat :=
  if 48 ≤ c.toNat ∧ c.toNat ≤ 57 then some (c.toNat - 48)
  else if 97 ≤ c.toNat ∧ c.toNat ≤ 102 then some (c.toNat - 87)
  else if 65 ≤ c.toNat ∧ c.toNat ≤ 70 then some (c.toNat - 55)
  else none

/-- Go `hex.EncodeToString` on a byte slice (two lowercase hex characters per
byte; the empty slice and `nil` both give the empty string). -/
def hexEncode (bs : Bytes) : List Char :=
  bs.flatMap (fun b => [hexDigitChar (b / 16), hexDigitChar (b % 16)])

/-- Go `hex.DecodeString`: `none` on odd length or a non-hex character. -/
def hexDecode : List Char → Option Bytes
  | [] => some []
  | [_] => none
  | c1 :: c2 :: rest =>
    match hexVal c1, hexVal c2, hexDecode rest with
    | some h, some l, some bs => some ((16 * h + l) :: bs)
    | _, _, _ => none

theorem hexVal_hexDigitChar {d : Nat} (h : d < 16) :
    hexVal (hexDigitChar d) = some d := by
  interval_cases d <;> decide

theorem hexDigitChar_ne_comma {d : Nat} (h : d < 16) : hexDigitChar d ≠ ',' := by
  interval_cases d <;> decide

theorem hexDigitChar_ne_eq {d : Nat} (h : d < 16) : hexDigitChar d ≠ '=' := by
  interval_cases d <;> decide

theorem hexDecode_hexEncode (bs : Bytes) (h : ∀ b ∈ bs, b < 256) :
    hexDecode (hexEncode bs) = some bs := by
  induction bs with
  | nil => rfl
  | cons b t ih =>
    have hb : b < 256 := h b (by simp)
    have h1 : b / 16 < 16 := by omega
    have h2 : b % 16 < 16 := by omega
    simp only [hexEncode, List.flatMap_cons, List.cons_append, List.nil_append]
    show hexDecode (hexDigitChar (b / 16) :: hexDigitChar (b % 16) :: hexEncode t)
      = some (b :: t)
    unfold hexDecode
    rw [hexVal_hexDigitChar h1, hexVal_hexDigitChar h2,
      ih (fun x hx => h x (by simp [hx]))]
    have : 16 * (b / 16) + b % 16 = b := by omega
    simp [this]

/-! ### Address string codec -/

/-- Three decimal digit characters for one byte. -/
def byte3 (b : Nat) : List Char :=
  [mkDigit (b / 100), mkDigit (b / 10 % 10), mkDigit (b % 10)]

/-- Modelled from the spec: `common.Address.String` (canonical address string,
not in src); modelled as an injective all-digits rendering, three characters
per byte. -/
def addrToStr (a : Addr) : List Char := a.flatMap byte3

/-- Modelled from the spec: `common.StrB58ToAddress` (not in src); the exact
inverse of `addrToStr` on canonical address strings. -/
def strToAddr : List Char → Addr
  | c1 :: c2 :: c3 :: rest =>
    (100 * digitVal c1 + 10 * digitVal c2 + digitVal c3) :: strToAddr rest
  | _ => []

theorem strToAddr_addrToStr (a : Addr) (h : ∀ b ∈ a, b < 256) :
    strToAddr (addrToStr a) = a := by
  induction a with
  | nil => rfl
  | cons b t ih =>
    have hb : b < 256 := h b (by simp)
    have h1 : b / 100 < 10 := by omega
    have h2 : b / 10 % 10 < 10 := by omega
    have h3 : b % 10 < 10 := by omega
    show strToAddr
      (mkDigit (b / 100) :: mkDigit (b / 10 % 10) :: mkDigit (b % 10)
        :: addrToStr t) = b :: t
    unfold strToAddr
    rw [digitVal_mkDigit h1, digitVal_mkDigit h2, digitVal_mkDigit h3,
      ih (fun x hx => h x (by simp [hx]))]
    congr 1
    omega

/-- Go `big.Int.Text(10)` read through a nullable pointer: a `nil` pointer
prints as the five characters of Go's nil marker, a value prints sign and
base-10 digits. -/
def balText : Option Int → List Char
  | none => ['<', 'n', 'i', 'l', '>']
  | some i => if i < 0 then '-' :: natText (-i).toNat else natText i.toNat

/-! ### Separator-freedom of the rendered values -/

/-- No comma and no equals sign occurs in the string. -/
def noSep (s : List Char) : Prop := ∀ c ∈ s, c ≠ ',' ∧ c ≠ '='

theorem noSep_natText (n : Nat) : noSep (natText n) := by
  intro c hc
  unfold natText at hc
  by_cases h : n = 0
  · simp [h] at hc
    subst hc
    constructor <;> decide
  · simp only [h, if_false, List.mem_map, List.mem_reverse] at hc
    obtain ⟨d, hd, rfl⟩ := hc
    have := Nat.digits_lt_base (by norm_num) hd
    exact ⟨mkDigit_ne_comma this, mkDigit_ne_eq this⟩

theorem noSep_balText (b : Option Int) : noSep (balText b) := by
  intro c hc
  cases b with
  | none =>
    simp only [balText, List.mem_cons, List.not_mem_nil, or_false] at hc
    rcases hc with rfl | rfl | rfl | rfl | rfl <;> exact ⟨by decide, by decide⟩
  | some i =>
    simp only [balText] at hc
    by_cases hi : i < 0
    · rw [if_pos hi] at hc
      rcases List.mem_cons.mp hc with rfl | hc
      · exact ⟨by decide, by decide⟩
      · exact noSep_natText _ c hc
    · rw [if_neg hi] at hc
      exact noSep_natText _ c hc

theorem noSep_hexEncode (bs : Bytes) (h : ∀ b ∈ bs, b < 256) :
    noSep (hexEncode bs) := by
  intro c hc
  simp only [hexEncode, List.mem_flatMap] at hc
  obtain ⟨b, hb, hc⟩ := hc
  have hblt : b < 256 := h b hb
  have h1 : b / 16 < 16 := by omega
  have h2 : b % 16 < 16 := by omega
  simp only [List.mem_cons, List.not_mem_nil, or_false] at hc
  rcases hc with rfl | rfl
  · exact ⟨hexDigitChar_ne_comma h1, hexDigitChar_ne_eq h1⟩
  · exact ⟨hexDigitChar_ne_comma h2, hexDigitChar_ne_eq h2⟩

theorem noSep_addrToStr (a : Addr) (h : ∀ b ∈ a, b < 256) :
    noSep (addrToStr a) := by
  intro c hc
  simp only [addrToStr, List.mem_flatMap] at hc
  obtain ⟨b, hb, hc⟩ := hc
  have hblt : b < 256 := h b hb
  have h1 : b / 100 < 10 := by omega
  have h2 : b / 10 % 10 < 10 := by omega
  have h3 : b % 10 < 10 := by omega
  simp only [byte3, List.mem_cons, List.not_mem_nil, or_false] at hc
  rcases hc with rfl | rfl | rfl
  · exact ⟨mkDigit_ne_comma h1, mkDigit_ne_eq h1⟩
  · exact ⟨mkDigit_ne_comma h2, mkDigit_ne_eq h2⟩
  · exact ⟨mkDigit_ne_comma h3, mkDigit_ne_eq h3⟩

/-! ### Map string codec -/

/-- Prepend a character onto the first piece of a split. -/
def consHead (x : Char) : List (List Char) → List (List Char)
  | [] => [[x]]
  | y :: ys => (x :: y) :: ys

/-- Split a string at every occurrence of a separator character. -/
def splitOnChar (c : Char) : List Char → List (List Char)
  | [] => [[]]
  | x :: xs =>
    if x = c then [] :: splitOnChar c xs else consHead x (splitOnChar c xs)

theorem splitOnChar_ne_nil (c : Char) (s : List Char) : splitOnChar c s ≠ [] := by
  induction s with
  | nil => simp [splitOnChar]
  | cons x xs ih =>
    by_cases hx : x = c
    · simp [splitOnChar, hx]
    · simp only [splitOnChar, if_neg hx]
      cases splitOnChar c xs <;> simp [consHead]

theorem splitOnChar_of_noSep (c : Char) (s : List Char) (h : c ∉ s) :
    splitOnChar c s = [s] := by
  induction s with
  | nil => rfl
  | cons x xs ih =>
    simp only [List.mem_cons] at h
    push_neg at h
    simp only [splitOnChar, if_neg (Ne.symm h.1), ih h.2, consHead]

theorem splitOnChar_append (c : Char) (s t : List Char) (h : c ∉ s) :
    splitOnChar c (s ++ c :: t) = s :: splitOnChar c t := by
  induction s with
  | nil => simp [splitOnChar]
  | cons x xs ih =>
    simp only [List.mem_cons] at h
    push_neg at h
    simp only [List.cons_append, splitOnChar, if_neg (Ne.symm h.1),
      List.append_eq, ih h.2, consHead]

/-- Split one piece at the first equals sign into key and value. -/
def splitEq : List Char → Option (List Char × List Char)
  | [] => none
  | x :: xs =>
    if x = '=' then some ([], xs)
    else (splitEq xs).map (fun p => (x :: p.1, p.2))

theorem splitEq_append (k v : List Char) (h : '=' ∉ k) :
    splitEq (k ++ '=' :: v) = some (k, v) := by
  induction k with
  | nil => simp [splitEq]
  | cons x xs ih =>
    simp only [List.mem_cons] at h
    push_neg at h
    simp only [List.cons_append, splitEq, if_neg (Ne.symm h.1),
      List.append_eq, ih h.2]
    rfl

/-- Split every piece at its first equals sign, failing if one lacks it. -/
def splitPieces : List (List Char) → Option (List (List Char × List Char))
  | [] => some []
  | x :: xs =>
    match splitEq x, splitPieces xs with
    | some p, some r => some (p :: r)
    | _, _ => none

/-- Modelled from the spec: `common.StringDecodeMap` (not in src); parses the
canonical comma-separated key=value rendering back into a key→value map,
`none` (Go `nil`) when some piece lacks a separator. -/
def stringDecodeMap (s : List Char) :
    Option (List (List Char × List Char)) :=
  splitPieces (splitOnChar ',' s)

/-- Lexicographic order on strings by character code, total. -/
def strLe (a b : List Char) : Bool :=
  match a, b with
  | [], _ => true
  | _ :: _, [] => false
  | x :: xs, y :: ys => if x = y then strLe xs ys else decide (x < y)

/-- Insert one pair into a key-sorted list. -/
def insortKV (p : List Char × List Char) :
    List (List Char × List Char) → List (List Char × List Char)
  | [] => [p]
  | q :: t => if strLe p.1 q.1 then p :: q :: t else q :: insortKV p t

/-- Insertion sort by key. -/
def sortKV : List (List Char × List Char) → List (List Char × List Char)
  | [] => []
  | p :: t => insortKV p (sortKV t)

/-- Comma-join of rendered pieces. -/
def joinComma : List (List Char) → List Char
  | [] => []
  | [x] => x
  | x :: y :: xs => x ++ ',' :: joinComma (y :: xs)

/-- Modelled from the spec: `common.SortAndEncodeMap` (not in src); renders a
map as comma-separated key=value pieces with the keys in sorted order
(canonical, deterministic; required for hash stability). -/
def sortAndEncodeMap (m : List (List Char × List Char)) : List Char :=
  joinComma ((sortKV m).map (fun p => p.1 ++ '=' :: p.2))

/-! ### The account record codec (`stateObject.Encode` / `Decode`) -/

/-- The logical content of one account record as the codec sees it. -/
structure AccountView where
  address : Addr
  balance : Option Int
  nonce : Nat
  code : Option Bytes
  stateRoot : Bytes

/-- Zero value of `common.Address`. -/
def zeroAddr : Addr := List.replicate 25 0

/-- The fresh zero `stateObject` the decoder fills in. -/
def zeroView : AccountView :=
  { address := zeroAddr, balance := none, nonce := 0, code := none,
    stateRoot := hashZ }

/-- The literal field map `stateObject.Encode` builds first (a Go map
rendered here as the association list in program order). -/
def encMap0 (v : AccountView) : List (List Char × List Char) :=
  [("address".toList, addrToStr v.address),
   ("balance".toList, balText v.balance),
   ("nonce".toList, natText v.nonce),
   ("code".toList, hexEncode (v.code.getD []))]

/-- The re-set of the code field when the code slice is non-nil. -/
def encMap1 (v : AccountView) : List (List Char × List Char) :=
  if v.code ≠ none then
    aset (encMap0 v) "code".toList (hexEncode (v.code.getD []))
  else encMap0 v

/-- The state_root field added only when the root is non-zero. -/
def encMap2 (v : AccountView) : List (List Char × List Char) :=
  if v.stateRoot = hashZ then encMap1 v
  else aset (encMap1 v) "state_root".toList (hexEncode v.stateRoot)

/-- `stateObject.Encode` from the source: build the field map (address,
balance, nonce, code; code re-set when non-nil; state_root only when
non-zero) and render it canonically sorted. -/
def encodeObj (v : AccountView) : List Char :=
  sortAndEncodeMap (encMap2 v)

/-- Helper `loadBytesByMapKey` from the source: map lookup plus hex decode,
absent or malformed gives nothing. -/
def loadBytesByMapKey (m : List (List Char × List Char)) (key : List Char) :
    Option Bytes :=
  (alookup m key).bind hexDecode

/-- Go `big.Int.Uint64` on the values `Decode` produces (the result is
undefined by Go when the value does not fit in 64 bits). -/
def toUint64 (i : Int) : Nat := i.toNat % 2 ^ 64

/-- `stateObject.Decode` from the source acting on a fresh zero object:
fields present in the parsed map overwrite the zero value; absent or
malformed fields keep it; a failed map parse leaves the object untouched. -/
def decodeView (data : List Char) : AccountView :=
  match stringDecodeMap data with
  | none => zeroView
  | some r =>
    let v0 := zeroView
    let v1 := match alookup r "address".toList with
      | some s => { v0 with address := strToAddr s }
      | none => v0
    let v2 := match (alookup r "balance".toList).bind parseInt with
      | some i => { v1 with balance := some i }
      | none => v1
    let v3 := match (alookup r "nonce".toList).bind parseInt with
      | some i => { v2 with nonce := toUint64 i }
      | none => v2
    let v4 := match (alookup r "code".toList).bind hexDecode with
      | some bs => { v3 with code := some bs }
      | none => v3
    match loadBytesByMapKey r "state_root".toList with
      | some bs => { v4 with stateRoot := bytes2Hash bs }
      | none => v4

/-- Well-formedness matching the Go field types: address, code and state root
hold bytes, the state root is a 32-byte hash, the nonce fits in 64 bits. -/
def WfView (v : AccountView) : Prop :=
  (∀ b ∈ v.address, b < 256) ∧ (∀ b ∈ v.code.getD [], b < 256) ∧
  v.stateRoot.length = 32 ∧ (∀ b ∈ v.stateRoot, b < 256) ∧ v.nonce < 2 ^ 64

/-! ### Round-trip of the account record codec -/

theorem stringDecodeMap_joinComma (l : List (List Char × List Char))
    (hne : l ≠ [])
    (hk : ∀ p ∈ l, ',' ∉ p.1 ∧ '=' ∉ p.1)
    (hv : ∀ p ∈ l, ∀ c ∈ p.2, c ≠ ',') :
    stringDecodeMap (joinComma (l.map (fun p => p.1 ++ '=' :: p.2))) =
      some l := by
  induction l with
  | nil => exact absurd rfl hne
  | cons p t ih =>
    obtain ⟨k, v⟩ := p
    have hk1 := hk (k, v) (by simp)
    have hv1 := hv (k, v) (by simp)
    have hnc : ',' ∉ k ++ '=' :: v := by
      intro hm
      rcases List.mem_append.mp hm with hm | hm
      · exact hk1.1 hm
      · rcases List.mem_cons.mp hm with hm | hm
        · exact absurd hm (by decide)
        · exact hv1 ',' hm rfl
    cases t with
    | nil =>
      unfold stringDecodeMap
      simp only [List.map_cons, List.map_nil, joinComma]
      rw [splitOnChar_of_noSep _ _ hnc]
      simp [splitPieces, splitEq_append k v hk1.2]
    | cons q t' =>
      have ih' := ih (by simp)
        (fun p hp => hk p (List.mem_cons_of_mem _ hp))
        (fun p hp => hv p (List.mem_cons_of_mem _ hp))
      unfold stringDecodeMap at ih' ⊢
      simp only [List.map_cons, joinComma] at ih' ⊢
      rw [splitOnChar_append _ _ _ hnc]
      simp [splitPieces, splitEq_append k v hk1.2, ih']

/-- The sorted piece list that `encodeObj` renders. -/
def pieces (v : AccountView) : List (List Char × List Char) :=
  [("address".toList, addrToStr v.address),
   ("balance".toList, balText v.balance),
   ("code".toList, hexEncode (v.code.getD [])),
   ("nonce".toList, natText v.nonce)] ++
  (if v.stateRoot = hashZ then []
   else [("state_root".toList, hexEncode v.stateRoot)])

theorem encMap1_eq (v : AccountView) : encMap1 v = encMap0 v := by
  unfold encMap1
  cases hc : v.code with
  | none => simp
  | some c => simp [hc, encMap0, aset]

theorem sortKV_encMap2 (v : AccountView) : sortKV (encMap2 v) = pieces v := by
  unfold encMap2 pieces
  rw [encMap1_eq]
  by_cases hr : v.stateRoot = hashZ
  · rw [if_pos hr, if_pos hr]
    rfl
  · rw [if_neg hr, if_neg hr]
    rfl

theorem alookup_pieces_address (v : AccountView) :
    alookup (pieces v) "address".toList = some (addrToStr v.address) := rfl

theorem alookup_pieces_balance (v : AccountView) :
    alookup (pieces v) "balance".toList = some (balText v.balance) := rfl

theorem alookup_pieces_code (v : AccountView) :
    alookup (pieces v) "code".toList = some (hexEncode (v.code.getD [])) := rfl

theorem alookup_pieces_nonce (v : AccountView) :
    alookup (pieces v) "nonce".toList = some (natText v.nonce) := rfl

theorem alookup_pieces_root (v : AccountView) :
    alookup (pieces v) "state_root".toList =
      if v.stateRoot = hashZ then none else some (hexEncode v.stateRoot) := by
  unfold pieces
  by_cases hr : v.stateRoot = hashZ
  · rw [if_pos hr, if_pos hr]
    rfl
  · rw [if_neg hr, if_neg hr]
    rfl

theorem parseInt_balText (b : Option Int) : parseInt (balText b) = b := by
  cases b with
  | none => decide
  | some i =>
    simp only [balText]
    by_cases hi : i < 0
    · rw [if_pos hi]
      unfold parseInt
      rw [if_pos ⟨by simp, rfl⟩]
      simp only [List.tail_cons, parseDigits_natText]
      rw [Int.toNat_of_nonneg (by omega : (0 : Int) ≤ -i)]
      simp
    · rw [if_neg hi]
      rw [parseInt_natText, Int.toNat_of_nonneg (by omega : (0 : Int) ≤ i)]

theorem bytes2Hash_len32 (b : Bytes) (h : b.length = 32) : bytes2Hash b = b := by
  unfold bytes2Hash
  rw [h]
  simp [List.take_of_length_le (le_of_eq h)]

theorem key_address_ok : ',' ∉ "address".toList ∧ '=' ∉ "address".toList := by
  decide

theorem key_balance_ok : ',' ∉ "balance".toList ∧ '=' ∉ "balance".toList := by
  decide

theorem key_code_ok : ',' ∉ "code".toList ∧ '=' ∉ "code".toList := by
  decide

theorem key_nonce_ok : ',' ∉ "nonce".toList ∧ '=' ∉ "nonce".toList := by
  decide

theorem key_root_ok : ',' ∉ "state_root".toList ∧ '=' ∉ "state_root".toList := by
  decide

theorem pieces_keys_ok (v : AccountView) :
    ∀ p ∈ pieces v, ',' ∉ p.1 ∧ '=' ∉ p.1 := by
  intro p hp
  unfold pieces at hp
  by_cases hr : v.stateRoot = hashZ
  · rw [if_pos hr, List.append_nil] at hp
    simp only [List.mem_cons, List.not_mem_nil, or_false] at hp
    rcases hp with rfl | rfl | rfl | rfl
    · exact key_address_ok
    · exact key_balance_ok
    · exact key_code_ok
    · exact key_nonce_ok
  · rw [if_neg hr] at hp
    simp only [List.mem_append, List.mem_cons, List.not_mem_nil,
      or_false] at hp
    rcases hp with (rfl | rfl | rfl | rfl) | rfl
    · exact key_address_ok
    · exact key_balance_ok
    · exact key_code_ok
    · exact key_nonce_ok
    · exact key_root_ok

theorem pieces_vals_ok (v : AccountView) (h : WfView v) :
    ∀ p ∈ pieces v, ∀ c ∈ p.2, c ≠ ',' := by
  obtain ⟨ha, hc, hrl, hrb, hn⟩ := h
  intro p hp
  unfold pieces at hp
  by_cases hr : v.stateRoot = hashZ
  · rw [if_pos hr, List.append_nil] at hp
    simp only [List.mem_cons, List.not_mem_nil, or_false] at hp
    rcases hp with rfl | rfl | rfl | rfl
    · exact fun c hcm => (noSep_addrToStr _ ha c hcm).1
    · exact fun c hcm => (noSep_balText _ c hcm).1
    · exact fun c hcm => (noSep_hexEncode _ hc c hcm).1
    · exact fun c hcm => (noSep_natText _ c hcm).1
  · rw [if_neg hr] at hp
    simp only [List.mem_append, List.mem_cons, List.not_mem_nil,
      or_false] at hp
    rcases hp with (rfl | rfl | rfl | rfl) | rfl
    · exact fun c hcm => (noSep_addrToStr _ ha c hcm).1
    · exact fun c hcm => (noSep_balText _ c hcm).1
    · exact fun c hcm => (noSep_hexEncode _ hc c hcm).1
    · exact fun c hcm => (noSep_natText _ c hcm).1
    · exact fun c hcm => (noSep_hexEncode _ hrb c hcm).1

theorem stringDecodeMap_encodeObj (v : AccountView) (h : WfView v) :
    stringDecodeMap (encodeObj v) = some (pieces v) := by
  rw [encodeObj, sortAndEncodeMap, sortKV_encMap2]
  apply stringDecodeMap_joinComma _ _ (pieces_keys_ok v) (pieces_vals_ok v h)
  unfold pieces
  by_cases hr : v.stateRoot = hashZ <;> simp [hr]

/-- The view the decoder reconstructs from an encoded record: identical up to
the code field becoming an explicit (possibly empty) byte slice. -/
def canonView (v : AccountView) : AccountView :=
  { address := v.address, balance := v.balance, nonce := v.nonce,
    code := some (v.code.getD []), stateRoot := v.stateRoot }

theorem decodeView_encodeObj (v : AccountView) (h : WfView v) :
    decodeView (encodeObj v) = canonView v := by
  obtain ⟨ha, hc, hrl, hrb, hn⟩ := h
  unfold decodeView
  rw [stringDecodeMap_encodeObj v ⟨ha, hc, hrl, hrb, hn⟩]
  have hmod : v.nonce % 18446744073709551616 = v.nonce := Nat.mod_eq_of_lt hn
  simp only [alookup_pieces_address, alookup_pieces_balance,
    alookup_pieces_code, alookup_pieces_nonce, loadBytesByMapKey,
    alookup_pieces_root, Option.some_bind, parseInt_balText,
    parseInt_natText, hexDecode_hexEncode _ hc,
    strToAddr_addrToStr _ ha]
  by_cases hr : v.stateRoot = hashZ <;>
    cases hb : v.balance <;>
    simp [hr, hb, hexDecode_hexEncode _ hrb, bytes2Hash_len32 _ hrl,
      canonView, zeroView, toUint64, Int.toNat_natCast, hmod]

theorem encodeObj_canonView (v : AccountView) :
    encodeObj (canonView v) = encodeObj v := by
  have h0 : encMap0 (canonView v) = encMap0 v := by
    unfold encMap0 canonView
    simp
  unfold encodeObj encMap2
  rw [encMap1_eq, encMap1_eq, h0]
  rfl

/-- C3: for every byte string that is itself the output of Encode on some
account record, decoding it into a fresh object and re-encoding reproduces
the string byte for byte (canonical, hash-stable encoding). -/
theorem C3_encode_decode_encode_roundtrip (v : AccountView) (h : WfView v) :
    encodeObj (decodeView (encodeObj v)) = encodeObj v := by
  rw [decodeView_encodeObj v h, encodeObj_canonView]

/-- A concrete account record used to witness the round-trip. -/
def exView : AccountView :=
  { address := [1, 2], balance := some 5, nonce := 7, code := some [171],
    stateRoot := hashZ }

/-- Witness for C3 at a concrete record. -/
theorem C3_roundtrip_witness :
    WfView exView ∧
      encodeObj (decodeView (encodeObj exView)) = encodeObj exView := by
  have hw : WfView exView := by
    unfold WfView
    refine ⟨?_, ?_, ?_, ?_, ?_⟩ <;> decide
  exact ⟨hw, C3_encode_decode_encode_roundtrip exView hw⟩

/-! ### The mutable world: big.Int cells, stateObject cells, tree handles

Go pointer structure is explicit: `*big.Int`, `*stateObject` and
`*avlmerkle.Tree` values are cell ids into the world's heaps. -/

/-- One `stateObject`'s fields.  `balance` and `merkleTree` are pointers
(cell ids); `db` names the shared persistent store handle.  A nil Go map and
an empty map are conflated in `cacheStorage` (the difference is only
observable by a write to a nil map, which no modelled path performs). -/
structure ObjData where
  address : Addr
  balance : Option Nat
  nonce : Nat
  extra : Option Bytes
  code : Option Bytes
  stateRoot : Bytes
  cacheStorage : List (Bytes × Bytes)
  db : Option Nat
  merkleTree : Option Nat

instance : Inhabited ObjData :=
  ⟨{ address := [], balance := none, nonce := 0, extra := none, code := none,
     stateRoot := hashZ, cacheStorage := [], db := none, merkleTree := none }⟩

/-- The heaps of the running program. -/
structure World where
  intCells : List (Nat × Int)
  intNext : Nat
  objCells : List (Nat × ObjData)
  objNext : Nat
  treeCells : List (Nat × List (Bytes × Bytes))
  treeNext : Nat
  dbCells : List (Nat × List (Bytes × List (Bytes × Bytes)))

/-- The shared package-level zero singleton `zeroBigN` lives at cell 0. -/
def zeroBigN : Nat := 0

/-- Value stored in a big.Int cell. -/
def intVal (w : World) (p : Nat) : Int := (alookup w.intCells p).getD 0

/-- Overwrite a big.Int cell in place (Go in-place arithmetic). -/
def setIntCell (w : World) (p : Nat) (v : Int) : World :=
  { w with intCells := aset w.intCells p v }

/-- Allocate a fresh big.Int cell (Go `new(big.Int)`). -/
def allocInt (w : World) (v : Int) : Nat × World :=
  (w.intNext,
   { w with intCells := aset w.intCells w.intNext v,
            intNext := w.intNext + 1 })

/-- Fields of the stateObject a pointer refers to. -/
def objData (w : World) (p : Nat) : ObjData := (alookup w.objCells p).getD default

/-- Overwrite a stateObject cell in place. -/
def setObjData (w : World) (p : Nat) (o : ObjData) : World :=
  { w with objCells := aset w.objCells p o }

/-- Allocate a fresh stateObject cell. -/
def allocObj (w : World) (o : ObjData) : Nat × World :=
  (w.objNext,
   { w with objCells := aset w.objCells w.objNext o,
            objNext := w.objNext + 1 })

/-- Modelled from the spec: `ahash.SHA256` (not in src); an idealized
collision-free content hash (injective by construction). -/
def sha256 (b : Bytes) : Bytes := 47 :: b

/-- Entries currently held by a tree handle. -/
def treeEntries (w : World) (t : Nat) : List (Bytes × Bytes) :=
  (alookup w.treeCells t).getD []

/-- Modelled from the spec: `avlmerkle.Tree.Get`. -/
def treeGet (w : World) (t : Nat) (k : Bytes) : Option Bytes :=
  alookup (treeEntries w t) k

/-- Modelled from the spec: `avlmerkle.Tree.Put`, a pending in-memory upsert
on one handle; nothing reaches the persistent store before Commit. -/
def treePut (w : World) (t : Nat) (k v : Bytes) : World :=
  { w with treeCells := aset w.treeCells t (aset (treeEntries w t) k v) }

/-- Modelled from the spec: the deterministic content-derived checksum of a
tree (entry count followed by length-prefixed entries). -/
def checksumOf (entries : List (Bytes × Bytes)) : Bytes :=
  entries.length ::
    entries.flatMap (fun p => p.1.length :: p.1 ++ p.2.length :: p.2)

/-- Checksum of a handle's current contents. -/
def treeChecksum (w : World) (t : Nat) : Bytes := checksumOf (treeEntries w t)

/-- Contents the persistent store holds for a root (empty when unknown). -/
def dbLoad (w : World) (db : Option Nat) (root : Bytes) :
    List (Bytes × Bytes) :=
  match db with
  | none => []
  | some d => (alookup ((alookup w.dbCells d).getD []) root).getD []

/-- Modelled from the spec: `avlmerkle.NewTree` opens a FRESH handle on the
store's contents for the given root; every call allocates a new handle. -/
def newTree (w : World) (db : Option Nat) (root : Bytes) : Nat × World :=
  (w.treeNext,
   { w with treeCells := aset w.treeCells w.treeNext (dbLoad w db root),
            treeNext := w.treeNext + 1 })

/-- Modelled from the spec: `avlmerkle.Tree.Copy`, an independent handle over
the same contents. -/
def treeCopy (w : World) (t : Nat) : Nat × World :=
  (w.treeNext,
   { w with treeCells := aset w.treeCells w.treeNext (treeEntries w t),
            treeNext := w.treeNext + 1 })

/-! ### stateObject methods (`src/state/state_object.go`, duplicated in
`src/unnamed/part_000`) -/

/-- `stateObject.SetBalance`: nil or negative values are refused, otherwise
the balance pointer field is assigned. -/
def SetBalance (w : World) (p : Nat) (val : Option Nat) : World :=
  match val with
  | none => w
  | some vp =>
    if intVal w vp < 0 then w
    else setObjData w p { objData w p with balance := some vp }

/-- `stateObject.AddBalance`: no-op for nil or non-positive deltas; otherwise
allocates a fresh big.Int holding old+val (old read through zeroBigN when the
balance is nil) and assigns it through SetBalance. -/
def AddBalance (w : World) (p : Nat) (val : Option Nat) : World :=
  match val with
  | none => w
  | some vp =>
    if intVal w vp ≤ 0 then w
    else
      let oldPtr := (objData w p).balance.getD zeroBigN
      let (newPtr, w1) := allocInt w (intVal w oldPtr + intVal w vp)
      SetBalance w1 p (some newPtr)

/-- `stateObject.SubBalance`: no-op for nil or non-positive deltas; otherwise
Go `oldBalance.Sub(oldBalance, val)` subtracts IN PLACE into the old balance
cell — which is the shared zeroBigN cell when the balance is nil — and then
assigns that same pointer through SetBalance. -/
def SubBalance (w : World) (p : Nat) (val : Option Nat) : World :=
  match val with
  | none => w
  | some vp =>
    if intVal w vp ≤ 0 then w
    else
      let oldPtr := (objData w p).balance.getD zeroBigN
      let w1 := setIntCell w oldPtr (intVal w oldPtr - intVal w vp)
      SetBalance w1 p (some oldPtr)

/-- `stateObject.SetNonce`. -/
def SetNonce (w : World) (p : Nat) (nonce : Nat) : World :=
  setObjData w p { objData w p with nonce := nonce }

/-- `stateObject.AddNonce` (uint64 addition wraps). -/
def AddNonce (w : World) (p : Nat) (n : Nat) : World :=
  setObjData w p
    { objData w p with nonce := ((objData w p).nonce + n) % 2 ^ 64 }

/-- `stateObject.setCode` (the code hash argument is discarded). -/
def setCode (w : World) (p : Nat) (code : Bytes) : World :=
  setObjData w p { objData w p with code := some code }

/-- `stateObject.SetState`: buffer into the in-memory cache only. -/
def soSetState (w : World) (p : Nat) (key value : Bytes) : World :=
  setObjData w p
    { objData w p with
        cacheStorage := aset (objData w p).cacheStorage key value }

/-- `stateObject.makeStateKey`: SHA-256 of address concatenated with key. -/
def makeStateKey (a : Addr) (key : Bytes) : Bytes := sha256 (a ++ key)

/-- `stateObject.getStateTree`: reopen a FRESH handle from the persistent
store at the current stateRoot on every call. -/
def getStateTree (w : World) (p : Nat) : Nat × World :=
  newTree w (objData w p).db (objData w p).stateRoot

/-- `stateObject.GetStateValue`: the cache first, then the reopened private
sub-tree at the derived key. -/
def GetStateValue (w : World) (p : Nat) (key : Bytes) : Option Bytes × World :=
  match alookup (objData w p).cacheStorage key with
  | some v => (some v, w)
  | none =>
    let (t, w1) := getStateTree w p
    match treeGet w1 t (makeStateKey (objData w p).address key) with
    | some v => (some v, w1)
    | none => (none, w1)

/-- The codec's view of a stateObject (balance pointer dereferenced). -/
def objView (w : World) (o : ObjData) : AccountView :=
  { address := o.address, balance := o.balance.map (intVal w),
    nonce := o.nonce, code := o.code, stateRoot := o.stateRoot }

/-- Bytes of the encoded record (Go string-to-bytes conversion). -/
def encodeBytes (v : AccountView) : Bytes := (encodeObj v).map Char.toNat

/-- One iteration of Update's storage loop: `so.getStateTree().Put(...)`
reopens a fresh handle and Puts the derived key into it. -/
def flushStep (p : Nat) (wa : World) (kv : Bytes × Bytes) : World :=
  match getStateTree wa p with
  | (t, wb) => treePut wb t (makeStateKey (objData wa p).address kv.1) kv.2

/-- The `for k, v := range so.cacheStorage` loop of Update. -/
def storageFlush (p : Nat) (w : World) (l : List (Bytes × Bytes)) : World :=
  l.foldl (flushStep p) w

/-- `stateObject.Update` exactly as written: each buffered entry is Put into
a sub-tree handle freshly reopened for that iteration, then yet another
fresh handle's checksum becomes the new stateRoot, then the record is
re-encoded and Put into the global tree under SHA-256(address). -/
def Update (w : World) (p : Nat) : World :=
  let w1 := storageFlush p w (objData w p).cacheStorage
  match getStateTree w1 p with
  | (t2, w2) =>
    let newRoot := bytes2Hash (treeChecksum w2 t2)
    let w3 := setObjData w2 p { objData w2 p with stateRoot := newRoot }
    let raw := encodeBytes (objView w3 (objData w3 p))
    match (objData w3 p).merkleTree with
    | some mt => treePut w3 mt (sha256 (objData w3 p).address) raw
    | none => w3

/-! ### StateDB (`src/unnamed/part_000`, package `state`) -/

/-- The `StateDB` struct: root bytes, shared persistent store handle, tree
handle, and the address→stateObject pointer cache.  Methods return the
updated struct alongside the world, modelling in-place mutation. -/
structure StateDB where
  root : Bytes
  treeDB : Nat
  merkleTree : Nat
  objs : List (Addr × Nat)

/-- `StateDB.GetStateObj`: cache hit returns the cached pointer; otherwise
look up SHA-256(address) in the global tree, decode into a fresh object
(which allocates a big.Int cell only when a balance field parsed, leaves the
db handle nil and the storage cache nil), bind it to the tree handle, cache
it; absent in both gives nil. -/
def GetStateObj (w : World) (st : StateDB) (addr : Addr) :
    Option Nat × World × StateDB :=
  match alookup st.objs addr with
  | some p => (some p, w, st)
  | none =>
    match treeGet w st.merkleTree (sha256 addr) with
    | some val =>
      let v := decodeView (val.map Char.ofNat)
      match v.balance with
      | none =>
        let (p, w1) := allocObj w
          { address := v.address, balance := none, nonce := v.nonce,
            extra := none, code := v.code, stateRoot := v.stateRoot,
            cacheStorage := [], db := none, merkleTree := some st.merkleTree }
        (some p, w1, { st with objs := aset st.objs addr p })
      | some i =>
        let (bp, w1) := allocInt w i
        let (p, w2) := allocObj w1
          { address := v.address, balance := some bp, nonce := v.nonce,
            extra := none, code := v.code, stateRoot := v.stateRoot,
            cacheStorage := [], db := none, merkleTree := some st.merkleTree }
        (some p, w2, { st with objs := aset st.objs addr p })
    | none => (none, w, st)

/-- `StateDB.newStateObj`: fresh object bound to this tree and store,
installed in the cache. -/
def newStateObj (w : World) (st : StateDB) (addr : Addr) :
    Nat × World × StateDB :=
  let (p, w1) := allocObj w
    { address := addr, balance := none, nonce := 0, extra := none,
      code := none, stateRoot := hashZ, cacheStorage := [],
      db := some st.treeDB, merkleTree := some st.merkleTree }
  (p, w1, { st with objs := aset st.objs addr p })

/-- `StateDB.GetOrNewStateObj`. -/
def GetOrNewStateObj (w : World) (st : StateDB) (addr : Addr) :
    Nat × World × StateDB :=
  match GetStateObj w st addr with
  | (some p, w1, st1) => (p, w1, st1)
  | (none, w1, st1) => newStateObj w1 st1 addr

/-- `StateDB.CreateAccount`: look up any old object, install a fresh one,
and copy over only the old balance pointer when an old object existed. -/
def CreateAccount (w : World) (st : StateDB) (addr : Addr) :
    World × StateDB :=
  match GetStateObj w st addr with
  | (old, w1, st1) =>
    match newStateObj w1 st1 addr with
    | (p, w2, st2) =>
      match old with
      | some q =>
        (setObjData w2 p
          { objData w2 p with balance := (objData w2 q).balance }, st2)
      | none => (w2, st2)

/-- `StateDB.HashAccount`: whether GetStateObj finds the account. -/
def HashAccount (w : World) (st : StateDB) (addr : Addr) :
    Bool × World × StateDB :=
  match GetStateObj w st addr with
  | (some _, w1, st1) => (true, w1, st1)
  | (none, w1, st1) => (false, w1, st1)

/-- `StateDB.GetBalance`: the object's balance pointer, or the shared
zeroBigN pointer when the object is absent or its balance is nil. -/
def GetBalance (w : World) (st : StateDB) (addr : Addr) :
    Nat × World × StateDB :=
  match GetStateObj w st addr with
  | (some p, w1, st1) =>
    match (objData w1 p).balance with
    | none => (zeroBigN, w1, st1)
    | some bp => (bp, w1, st1)
  | (none, w1, st1) => (zeroBigN, w1, st1)

/-- Observable integer value of the pointer `StateDB.GetBalance` returns. -/
def GetBalanceVal (w : World) (st : StateDB) (addr : Addr) : Int :=
  match GetBalance w st addr with
  | (p, w1, _) => intVal w1 p

/-- `StateDB.GetNonce`: the object's nonce, or 0 when absent. -/
def GetNonce (w : World) (st : StateDB) (addr : Addr) :
    Nat × World × StateDB :=
  match GetStateObj w st addr with
  | (some p, w1, st1) => ((objData w1 p).nonce, w1, st1)
  | (none, w1, st1) => (0, w1, st1)

/-- `StateDB.GetCode`: the object's code slice, or nil when absent. -/
def GetCode (w : World) (st : StateDB) (addr : Addr) :
    Option Bytes × World × StateDB :=
  match GetStateObj w st addr with
  | (some p, w1, st1) => ((objData w1 p).code, w1, st1)
  | (none, w1, st1) => (none, w1, st1)

/-- `StateDB.GetExtra`: materializes through GetOrNewStateObj, then reads
the extra field. -/
def GetExtra (w : World) (st : StateDB) (addr : Addr) :
    Option Bytes × World × StateDB :=
  match GetOrNewStateObj w st addr with
  | (p, w1, st1) => ((objData w1 p).extra, w1, st1)

/-- `StateDB.GetStateRoot`: materializes through GetOrNewStateObj, then
reads the storage root. -/
def GetStateRoot (w : World) (st : StateDB) (addr : Addr) :
    Bytes × World × StateDB :=
  match GetOrNewStateObj w st addr with
  | (p, w1, st1) => ((objData w1 p).stateRoot, w1, st1)

/-- `StateDB.AddBalance` wrapper. -/
def StateDB.AddBalance (w : World) (st : StateDB) (addr : Addr)
    (val : Option Nat) : World × StateDB :=
  match GetOrNewStateObj w st addr with
  | (p, w1, st1) => (XfsState.AddBalance w1 p val, st1)

/-- `StateDB.SubBalance` wrapper. -/
def StateDB.SubBalance (w : World) (st : StateDB) (addr : Addr)
    (val : Option Nat) : World × StateDB :=
  match GetOrNewStateObj w st addr with
  | (p, w1, st1) => (XfsState.SubBalance w1 p val, st1)

/-- `StateDB.SetBalance` wrapper. -/
def StateDB.SetBalance (w : World) (st : StateDB) (addr : Addr)
    (val : Option Nat) : World × StateDB :=
  match GetOrNewStateObj w st addr with
  | (p, w1, st1) => (XfsState.SetBalance w1 p val, st1)

/-- `StateDB.SetState`: the body is commented out in the source; nothing is
buffered and both the world and the struct are returned unchanged. -/
def StateDB.SetState (w : World) (st : StateDB) (_addr : Addr)
    (_key _value : Bytes) : World × StateDB := (w, st)

/-- `StateDB.GetState`: the body is commented out in the source; always the
zero hash, regardless of prior writes. -/
def StateDB.GetState (_w : World) (_st : StateDB) (_addr : Addr)
    (_key : Bytes) : Bytes := hashZ

/-- `StateDB.Copy`: Go `copy` into the new struct's nil root slice copies
nothing, the persistent store handle is shared, the tree handle is
independently copied, and the object map is copied shallowly — the same
stateObject pointers under a fresh map. -/
def StateDB.Copy (w : World) (st : StateDB) : StateDB × World :=
  match treeCopy w st.merkleTree with
  | (t, w1) =>
    ({ root := [], treeDB := st.treeDB, merkleTree := t, objs := st.objs },
     w1)

/-- `StateDB.UpdateAll`: Update every cached object. -/
def UpdateAll (w : World) (st : StateDB) : World :=
  st.objs.foldl (fun wa pr => Update wa pr.2) w

/-- `StateDB.Root`: the tree handle's current checksum. -/
def StateDB.Root (w : World) (st : StateDB) : Bytes :=
  treeChecksum w st.merkleTree

/-- `StateDB.Suicide`: the body is commented out in the source; returns true
with no effect on any account (its own doc comment promises the balance is
cleared). -/
def Suicide (w : World) (st : StateDB) (_addr : Addr) :
    Bool × World × StateDB := (true, w, st)

/-- `StateDB.AddressInAccessList`: returns true unconditionally; nothing is
ever recorded. -/
def AddressInAccessList (_st : StateDB) (_addr : Addr) : Bool := true

/-- `StateDB.SubRefund`: the body (including the documented underflow panic)
is commented out; the call silently does nothing. -/
def SubRefund (w : World) (st : StateDB) (_gas : Nat) : World × StateDB :=
  (w, st)

/-- `StateDB.AddRefund`: the body is commented out; no effect. -/
def AddRefund (w : World) (st : StateDB) (_gas : Nat) : World × StateDB :=
  (w, st)

/-- `StateDB.GetRefund`: always zero. -/
def GetRefund (_st : StateDB) : Nat := 0

/-! ### Auxiliary lemmas on the heaps -/

theorem mem_of_alookup {κ α : Type} [DecidableEq κ]
    {l : List (κ × α)} {k : κ} {v : α} (h : alookup l k = some v) :
    (k, v) ∈ l := by
  induction l with
  | nil => simp [alookup] at h
  | cons hd t ih =>
    obtain ⟨k0, v0⟩ := hd
    by_cases hk : k = k0
    · subst hk
      simp [alookup] at h
      subst h
      simp
    · simp only [alookup, if_neg hk] at h
      exact List.mem_cons_of_mem _ (ih h)

theorem alookup_eq_none {κ α : Type} [DecidableEq κ]
    {l : List (κ × α)} {k : κ} :
    alookup l k = none ↔ k ∉ akeys l := by
  induction l with
  | nil => simp [alookup, akeys]
  | cons hd t ih =>
    obtain ⟨k0, v0⟩ := hd
    by_cases hk : k = k0
    · subst hk
      simp [alookup, akeys]
    · simp [alookup, akeys, hk, ih]

theorem aset_append_of_notMem {κ α : Type} [DecidableEq κ]
    {l : List (κ × α)} {k : κ} (v : α) (h : k ∉ akeys l) :
    aset l k v = l ++ [(k, v)] := by
  induction l with
  | nil => rfl
  | cons hd t ih =>
    obtain ⟨k0, v0⟩ := hd
    simp only [akeys, List.map_cons, List.mem_cons] at h
    push_neg at h
    simp [aset, h.1, ih (by simpa [akeys] using h.2)]

/-! ### Concrete worlds used to evaluate the code on failing inputs -/

/-- An account object at address 9 whose balance is big.Int cell 1. -/
def exObj : ObjData :=
  { address := [9], balance := some 1, nonce := 0, extra := none,
    code := none, stateRoot := hashZ, cacheStorage := [],
    db := some 0, merkleTree := some 0 }

/-- World with zeroBigN at cell 0, the account balance 5 at cell 1, and a
subtrahend 7 at cell 2. -/
def exWorld : World :=
  { intCells := [(0, 0), (1, 5), (2, 7)], intNext := 3,
    objCells := [(0, exObj)], objNext := 1,
    treeCells := [(0, [])], treeNext := 1,
    dbCells := [(0, [])] }

/-- StateDB caching the address-9 account at object cell 0. -/
def exDB : StateDB :=
  { root := [], treeDB := 0, merkleTree := 0, objs := [([9], 0)] }

/-! ### C9 -/

/-- C9: StateDB.SetState changes nothing at all (its body is commented out)
and StateDB.GetState always answers the zero hash, while per-account storage
is reachable by calling SetState / GetStateValue directly on a stateObject:
a buffered write is immediately readable there. -/
theorem C9_statedb_setstate_inert (w : World) (st : StateDB) (addr : Addr)
    (k v h : Bytes) (p : Nat) :
    StateDB.SetState w st addr k v = (w, st) ∧
    StateDB.GetState w st addr h = hashZ ∧
    (GetStateValue (soSetState w p k v) p k).1 = some v := by
  refine ⟨rfl, rfl, ?_⟩
  unfold GetStateValue soSetState
  simp [objData, setObjData, alookup_aset_self]

/-! ### C4 -/

/-- C4: the placeholder methods silently report success with no effect.
Suicide returns true yet leaves the balance of the account untouched
(its own doc comment promises the balance is cleared), SubRefund silently
succeeds on a refund counter that is already zero, and AddressInAccessList
reports membership for an address never added. -/
theorem C4_placeholders_silently_succeed :
    (Suicide exWorld exDB [9]).1 = true ∧
    GetBalanceVal (Suicide exWorld exDB [9]).2.1
      (Suicide exWorld exDB [9]).2.2 [9] = 5 ∧
    SubRefund exWorld exDB 10 = (exWorld, exDB) ∧
    GetRefund exDB = 0 ∧
    AddressInAccessList exDB [7] = true := by
  refine ⟨rfl, ?_, rfl, rfl, rfl⟩
  decide

/-! ### C2 -/

/-- C2: SubBalance with a positive argument larger than the current balance
does NOT leave the balance unchanged: the source subtracts in place through
the shared old-balance pointer (Go `oldBalance.Sub(oldBalance, val)`), so
the observable balance becomes negative (here 5 - 7 = -2) even though the
subsequent SetBalance refuses the negative assignment. -/
theorem C2_subbalance_underflows_in_place :
    (objData (SubBalance exWorld 0 (some 2)) 0).balance = some 1 ∧
    intVal (SubBalance exWorld 0 (some 2)) 1 = -2 ∧
    GetBalanceVal (SubBalance exWorld 0 (some 2)) exDB [9] = -2 := by
  exact ⟨by decide, by decide, by decide⟩

/-! ### C8 -/

/-- C8: SubBalance with positive value v on a stateObject whose balance
field is nil mutates the shared zeroBigN cell in place to -v while the
object's balance stays nil, and afterwards StateDB.GetBalance of every
address that is absent (from cache and tree) or cached with a nil balance
observes -v instead of zero. -/
theorem C8_subbalance_corrupts_zeroBigN
    (w : World) (p vp : Nat) (v : Int)
    (hbal : (objData w p).balance = none)
    (hzero : intVal w zeroBigN = 0)
    (hval : intVal w vp = v) (hpos : 0 < v) :
    intVal (SubBalance w p (some vp)) zeroBigN = -v ∧
    (objData (SubBalance w p (some vp)) p).balance = none ∧
    (∀ st addr, alookup st.objs addr = none →
      treeGet (SubBalance w p (some vp)) st.merkleTree (sha256 addr) =
        none →
      GetBalanceVal (SubBalance w p (some vp)) st addr = -v) ∧
    (∀ st addr q, alookup st.objs addr = some q →
      (objData (SubBalance w p (some vp)) q).balance = none →
      GetBalanceVal (SubBalance w p (some vp)) st addr = -v) := by
  have hle : ¬ intVal w vp ≤ 0 := by rw [hval]; omega
  have hcell : ∀ x : Int, intVal (setIntCell w zeroBigN x) zeroBigN = x := by
    intro x
    unfold intVal setIntCell
    simp [alookup_aset_self]
  have hsub : SubBalance w p (some vp) = setIntCell w zeroBigN (-v) := by
    simp only [SubBalance, if_neg hle]
    simp only [hbal, Option.getD_none, hzero, hval, zero_sub]
    simp only [SetBalance, hcell]
    rw [if_pos (by omega : -v < 0)]
  have hival : intVal (setIntCell w zeroBigN (-v)) zeroBigN = -v := hcell _
  have hobj : ∀ r, objData (setIntCell w zeroBigN (-v)) r = objData w r := by
    intro r
    unfold objData setIntCell
    rfl
  refine ⟨by rw [hsub, hival], by rw [hsub, hobj]; exact hbal, ?_, ?_⟩
  · intro st addr hcm htm
    rw [hsub] at htm ⊢
    simp only [GetBalanceVal, GetBalance, GetStateObj, hcm, htm]
    exact hival
  · intro st addr q hcm hbm
    rw [hsub] at hbm ⊢
    simp only [GetBalanceVal, GetBalance, GetStateObj, hcm, hbm]
    exact hival

/-- An account object at address 8 whose balance field is nil. -/
def exObjNil : ObjData :=
  { address := [8], balance := none, nonce := 0, extra := none,
    code := none, stateRoot := hashZ, cacheStorage := [],
    db := some 0, merkleTree := some 0 }

/-- World for the zeroBigN corruption witness: cell 1 holds the value 7. -/
def exWorldNil : World :=
  { intCells := [(0, 0), (1, 7)], intNext := 2,
    objCells := [(0, exObjNil)], objNext := 1,
    treeCells := [(0, [])], treeNext := 1,
    dbCells := [(0, [])] }

/-- An empty StateDB over the same tree handle. -/
def exDBEmpty : StateDB :=
  { root := [], treeDB := 0, merkleTree := 0, objs := [] }

/-- Witness for C8 at a concrete world: after SubBalance(7) on a nil-balance
object, zeroBigN holds -7 and GetBalance of the absent address 42 reports
-7. -/
theorem C8_corrupts_zeroBigN_witness :
    intVal (SubBalance exWorldNil 0 (some 1)) zeroBigN = -7 ∧
    GetBalanceVal (SubBalance exWorldNil 0 (some 1)) exDBEmpty [42] = -7 := by
  have h := C8_subbalance_corrupts_zeroBigN exWorldNil 0 1 7
    (by decide) (by decide) (by decide) (by decide)
  exact ⟨h.1, h.2.2.1 exDBEmpty [42] (by decide) (by decide)⟩

/-! ### C7 -/

/-- C7: for an address absent from both the object cache and the global
tree (and with the zero singleton unpolluted), the read accessors surface
absence as zero or empty results and never as an error: GetBalance observes
value 0, GetNonce returns 0 and GetCode returns nil. -/
theorem C7_absent_reads_give_zero (w : World) (st : StateDB) (addr : Addr)
    (hc : alookup st.objs addr = none)
    (ht : treeGet w st.merkleTree (sha256 addr) = none)
    (hz : intVal w zeroBigN = 0) :
    GetBalanceVal w st addr = 0 ∧
    (GetNonce w st addr).1 = 0 ∧
    (GetCode w st addr).1 = none := by
  simp only [GetBalanceVal, GetBalance, GetNonce, GetCode, GetStateObj,
    hc, ht]
  exact ⟨hz, by trivial, by trivial⟩

/-- Witness for C7 at a concrete world and the absent address 42. -/
theorem C7_absent_reads_witness :
    GetBalanceVal exWorld exDB [42] = 0 ∧
    (GetNonce exWorld exDB [42]).1 = 0 ∧
    (GetCode exWorld exDB [42]).1 = none :=
  C7_absent_reads_give_zero exWorld exDB [42]
    (by decide) (by decide) (by decide)

/-! ### C6 -/

/-- C6: CreateAccount installs a fresh stateObject for the address whose
nonce is 0, code and extra are nil, storage cache is empty and storage root
is the zero hash; only the balance pointer of a previously existing object
(cached, or decoded from the tree) is carried over, and with no prior
object the balance is nil as well. -/
theorem C6_create_account_preserves_only_balance
    (w : World) (st : StateDB) (addr : Addr)
    (hwfp : ∀ pr ∈ st.objs, pr.2 < w.objNext) :
    ∃ p,
      alookup (CreateAccount w st addr).2.objs addr = some p ∧
      (objData (CreateAccount w st addr).1 p).address = addr ∧
      (objData (CreateAccount w st addr).1 p).nonce = 0 ∧
      (objData (CreateAccount w st addr).1 p).code = none ∧
      (objData (CreateAccount w st addr).1 p).extra = none ∧
      (objData (CreateAccount w st addr).1 p).cacheStorage = [] ∧
      (objData (CreateAccount w st addr).1 p).stateRoot = hashZ ∧
      (objData (CreateAccount w st addr).1 p).balance =
        (match GetStateObj w st addr with
         | (some q, w1, _) => (objData w1 q).balance
         | (none, _, _) => none) := by
  cases hca : alookup st.objs addr with
  | some q =>
    have hql : q < w.objNext := hwfp (addr, q) (mem_of_alookup hca)
    have hqe : q ≠ w.objNext := Nat.ne_of_lt hql
    refine ⟨w.objNext, ?_⟩
    simp only [CreateAccount, GetStateObj, hca, newStateObj, allocObj,
      setObjData, objData]
    simp [alookup_aset_self, alookup_aset_ne _ _ _ _ hqe, objData]
  | none =>
    cases htr : treeGet w st.merkleTree (sha256 addr) with
    | none =>
      refine ⟨w.objNext, ?_⟩
      simp only [CreateAccount, GetStateObj, hca, htr, newStateObj,
        allocObj, setObjData, objData]
      simp [alookup_aset_self, objData]
    | some val =>
      cases hvb : (decodeView (val.map Char.ofNat)).balance with
      | none =>
        have hqe : w.objNext ≠ w.objNext + 1 := by omega
        refine ⟨w.objNext + 1, ?_⟩
        simp only [CreateAccount, GetStateObj, hca, htr, hvb, newStateObj,
          allocObj, setObjData, objData]
        simp [alookup_aset_self, alookup_aset_ne _ _ _ _ hqe, objData, hvb]
      | some i =>
        have hqe : w.objNext ≠ w.objNext + 1 := by omega
        refine ⟨w.objNext + 1, ?_⟩
        simp only [CreateAccount, GetStateObj, hca, htr, hvb, newStateObj,
          allocObj, allocInt, setObjData, objData]
        simp [alookup_aset_self, alookup_aset_ne _ _ _ _ hqe, objData, hvb]

/-- Witness for C6: CreateAccount on address 9, which exists with balance
cell 1 (value 5) and would-be nonce; the new object keeps only that balance
pointer. -/
theorem C6_create_account_witness :
    ∃ p,
      alookup (CreateAccount exWorld exDB [9]).2.objs [9] = some p ∧
      (objData (CreateAccount exWorld exDB [9]).1 p).address = [9] ∧
      (objData (CreateAccount exWorld exDB [9]).1 p).nonce = 0 ∧
      (objData (CreateAccount exWorld exDB [9]).1 p).code = none ∧
      (objData (CreateAccount exWorld exDB [9]).1 p).extra = none ∧
      (objData (CreateAccount exWorld exDB [9]).1 p).cacheStorage = [] ∧
      (objData (CreateAccount exWorld exDB [9]).1 p).stateRoot = hashZ ∧
      (objData (CreateAccount exWorld exDB [9]).1 p).balance =
        (match GetStateObj exWorld exDB [9] with
         | (some q, w1, _) => (objData w1 q).balance
         | (none, _, _) => none) :=
  C6_create_account_preserves_only_balance exWorld exDB [9] (by decide)

/-! ### C5 -/

theorem objData_setObjData_self (w : World) (p : Nat) (o : ObjData) :
    objData (setObjData w p o) p = o := by
  unfold objData setObjData
  simp [alookup_aset_self]

theorem intVal_allocInt (w : World) (x : Int) :
    intVal (allocInt w x).2 w.intNext = x := by
  unfold intVal allocInt
  simp [alookup_aset_self]

theorem getBalanceVal_cached (w : World) (st : StateDB) (addr : Addr)
    (p bp : Nat)
    (hcache : alookup st.objs addr = some p)
    (hbal : (objData w p).balance = some bp) :
    GetBalanceVal w st addr = intVal w bp := by
  simp only [GetBalanceVal, GetBalance, GetStateObj, hcache, hbal]

theorem addBalance_cached_eq (w : World) (st : StateDB) (addr : Addr)
    (p bp vp : Nat)
    (hcache : alookup st.objs addr = some p)
    (hbal : (objData w p).balance = some bp)
    (hbnn : 0 ≤ intVal w bp) (hvpos : 0 < intVal w vp) :
    StateDB.AddBalance w st addr (some vp) =
      (setObjData (allocInt w (intVal w bp + intVal w vp)).2 p
        { objData w p with balance := some w.intNext }, st) := by
  simp only [StateDB.AddBalance, GetOrNewStateObj, GetStateObj, hcache]
  simp only [AddBalance, if_neg (by omega : ¬ intVal w vp ≤ 0), hbal,
    Option.getD_some]
  have hfresh : intVal (allocInt w (intVal w bp + intVal w vp)).2
      w.intNext = intVal w bp + intVal w vp := intVal_allocInt _ _
  simp only [allocInt] at hfresh ⊢
  simp only [SetBalance, hfresh]
  rw [if_neg (by omega)]
  rfl

/-- C5: after cpy := st.Copy() with addr already cached at object cell p,
the copy shares the persistent store handle and the very same stateObject
instance (AddBalance through either side is observed through the other via
GetBalance), while the merkle tree handle is an independent copy: a
tree-level write through one handle is invisible through the other. -/
theorem C5_copy_shares_objects_not_tree
    (w : World) (st : StateDB) (addr : Addr) (p bp vp : Nat) (b v : Int)
    (k val : Bytes)
    (hcache : alookup st.objs addr = some p)
    (hbal : (objData w p).balance = some bp)
    (hb : intVal w bp = b) (hv : intVal w vp = v)
    (hbnn : 0 ≤ b) (hvpos : 0 < v)
    (htlt : st.merkleTree < w.treeNext) :
    (StateDB.Copy w st).1.treeDB = st.treeDB ∧
    alookup (StateDB.Copy w st).1.objs addr = some p ∧
    GetBalanceVal
      (StateDB.AddBalance (StateDB.Copy w st).2 (StateDB.Copy w st).1 addr
        (some vp)).1 st addr = b + v ∧
    GetBalanceVal
      (StateDB.AddBalance (StateDB.Copy w st).2 st addr (some vp)).1
      (StateDB.Copy w st).1 addr = b + v ∧
    treeEntries
      (treePut (StateDB.Copy w st).2 (StateDB.Copy w st).1.merkleTree k val)
      st.merkleTree = treeEntries (StateDB.Copy w st).2 st.merkleTree ∧
    treeEntries
      (treePut (StateDB.Copy w st).2 st.merkleTree k val)
      (StateDB.Copy w st).1.merkleTree =
      treeEntries (StateDB.Copy w st).2 (StateDB.Copy w st).1.merkleTree := by
  have hne : st.merkleTree ≠ w.treeNext := Nat.ne_of_lt htlt
  have hb' : intVal (StateDB.Copy w st).2 bp = b := hb
  have hv' : intVal (StateDB.Copy w st).2 vp = v := hv
  have hbal' : (objData (StateDB.Copy w st).2 p).balance = some bp := hbal
  have hcachecpy : alookup (StateDB.Copy w st).1.objs addr = some p := hcache
  refine ⟨rfl, hcache, ?_, ?_, ?_, ?_⟩
  · rw [addBalance_cached_eq (StateDB.Copy w st).2 (StateDB.Copy w st).1
      addr p bp vp hcachecpy hbal' (by rw [hb']; omega) (by rw [hv']; omega)]
    rw [getBalanceVal_cached _ st addr p (StateDB.Copy w st).2.intNext
      hcache (by rw [objData_setObjData_self])]
    show intVal (allocInt (StateDB.Copy w st).2
      (intVal (StateDB.Copy w st).2 bp + intVal (StateDB.Copy w st).2 vp)).2
      (StateDB.Copy w st).2.intNext = b + v
    rw [intVal_allocInt, hb', hv']
  · rw [addBalance_cached_eq (StateDB.Copy w st).2 st
      addr p bp vp hcache hbal' (by rw [hb']; omega) (by rw [hv']; omega)]
    rw [getBalanceVal_cached _ (StateDB.Copy w st).1 addr p
      (StateDB.Copy w st).2.intNext hcachecpy
      (by rw [objData_setObjData_self])]
    show intVal (allocInt (StateDB.Copy w st).2
      (intVal (StateDB.Copy w st).2 bp + intVal (StateDB.Copy w st).2 vp)).2
      (StateDB.Copy w st).2.intNext = b + v
    rw [intVal_allocInt, hb', hv']
  · show (alookup (aset (StateDB.Copy w st).2.treeCells w.treeNext _)
      st.merkleTree).getD [] = _
    rw [alookup_aset_ne _ _ _ _ hne]
    rfl
  · show (alookup (aset (StateDB.Copy w st).2.treeCells st.merkleTree _)
      w.treeNext).getD [] = _
    rw [alookup_aset_ne _ _ _ _ (Ne.symm hne)]
    rfl

/-- Witness for C5: copy of the concrete StateDB, mutate balance 5 by 7
through the copy, observe 12 through the original (and symmetrically), and
tree writes through one handle stay invisible through the other. -/
theorem C5_copy_witness :
    (StateDB.Copy exWorld exDB).1.treeDB = exDB.treeDB ∧
    alookup (StateDB.Copy exWorld exDB).1.objs [9] = some 0 ∧
    GetBalanceVal
      (StateDB.AddBalance (StateDB.Copy exWorld exDB).2
        (StateDB.Copy exWorld exDB).1 [9] (some 2)).1 exDB [9] = 5 + 7 ∧
    GetBalanceVal
      (StateDB.AddBalance (StateDB.Copy exWorld exDB).2 exDB [9]
        (some 2)).1 (StateDB.Copy exWorld exDB).1 [9] = 5 + 7 ∧
    treeEntries
      (treePut (StateDB.Copy exWorld exDB).2
        (StateDB.Copy exWorld exDB).1.merkleTree [3] [4])
      exDB.merkleTree =
      treeEntries (StateDB.Copy exWorld exDB).2 exDB.merkleTree ∧
    treeEntries
      (treePut (StateDB.Copy exWorld exDB).2 exDB.merkleTree [3] [4])
      (StateDB.Copy exWorld exDB).1.merkleTree =
      treeEntries (StateDB.Copy exWorld exDB).2
        (StateDB.Copy exWorld exDB).1.merkleTree :=
  C5_copy_shares_objects_not_tree exWorld exDB [9] 0 1 2 5 7 [3] [4]
    (by decide) (by decide) (by decide) (by decide) (by decide) (by decide)
    (by decide)

/-! ### C1 -/

/-- A stateObject holding one buffered storage write (key [1] ↦ value [2]),
with an empty private sub-tree (zero storage root over an empty store). -/
def exObjC1 : ObjData :=
  { address := [9], balance := none, nonce := 0, extra := none, code := none,
    stateRoot := hashZ, cacheStorage := [([1], [2])], db := some 0,
    merkleTree := some 0 }

/-- World for the Update evaluation: empty global tree at handle 0, empty
persistent store. -/
def exWorldC1 : World :=
  { intCells := [(0, 0)], intNext := 1, objCells := [(0, exObjC1)],
    objNext := 1, treeCells := [(0, [])], treeNext := 1,
    dbCells := [(0, [])] }

/-- C1: Update drops the buffered entry.  Each getStateTree() call reopens a
fresh handle from the persistent store, so every Put lands in a handle that
is immediately discarded, and the recomputed storage root is the checksum of
the unmodified (here: empty) sub-tree — not the checksum of the sub-tree
holding the buffered entry, as the claim requires.  The record itself is
re-encoded with that stale root and stored in the global tree under
SHA-256(address), and nothing of the entry reaches the persistent store. -/
theorem C1_update_drops_buffered_storage :
    (objData (Update exWorldC1 0) 0).stateRoot =
      bytes2Hash (checksumOf []) ∧
    bytes2Hash (checksumOf []) ≠
      bytes2Hash (checksumOf [(makeStateKey [9] [1], [2])]) ∧
    treeGet (Update exWorldC1 0) 0 (sha256 [9]) =
      some (encodeBytes
        { address := [9], balance := none, nonce := 0, code := none,
          stateRoot := bytes2Hash (checksumOf []) }) ∧
    dbLoad (Update exWorldC1 0) (some 0) (bytes2Hash (checksumOf [])) =
      [] := by
  refine ⟨by decide, by decide, by decide, by decide⟩

/-! ### C10: effect lemmas for Update and UpdateAll -/

theorem flushStep_preserves (p : Nat) (wa : World) (kv : Bytes × Bytes) :
    (flushStep p wa kv).dbCells = wa.dbCells ∧
    (flushStep p wa kv).objCells = wa.objCells ∧
    (flushStep p wa kv).intCells = wa.intCells ∧
    (flushStep p wa kv).treeNext = wa.treeNext + 1 :=
  ⟨rfl, rfl, rfl, rfl⟩

theorem flushStep_entries (p mt : Nat) (wa : World) (kv : Bytes × Bytes)
    (hmt : mt < wa.treeNext) :
    treeEntries (flushStep p wa kv) mt = treeEntries wa mt := by
  have hne : mt ≠ wa.treeNext := Nat.ne_of_lt hmt
  show (alookup (aset (aset wa.treeCells wa.treeNext _) wa.treeNext _)
    mt).getD [] = _
  rw [alookup_aset_ne _ _ _ _ hne, alookup_aset_ne _ _ _ _ hne]
  rfl

theorem storageFlush_preserves (p : Nat) (l : List (Bytes × Bytes)) :
    ∀ w : World,
      (storageFlush p w l).dbCells = w.dbCells ∧
      (storageFlush p w l).objCells = w.objCells ∧
      (storageFlush p w l).intCells = w.intCells ∧
      w.treeNext ≤ (storageFlush p w l).treeNext := by
  induction l with
  | nil => exact fun w => ⟨rfl, rfl, rfl, le_refl _⟩
  | cons kv t ih =>
    intro w
    obtain ⟨h1, h2, h3, h4⟩ := ih (flushStep p w kv)
    obtain ⟨g1, g2, g3, g4⟩ := flushStep_preserves p w kv
    refine ⟨?_, ?_, ?_, ?_⟩
    · exact (h1.trans g1 :)
    · exact (h2.trans g2 :)
    · exact (h3.trans g3 :)
    · show w.treeNext ≤ (storageFlush p (flushStep p w kv) t).treeNext
      omega

theorem storageFlush_entries (p mt : Nat) (l : List (Bytes × Bytes)) :
    ∀ w : World, mt < w.treeNext →
      treeEntries (storageFlush p w l) mt = treeEntries w mt := by
  induction l with
  | nil => exact fun w _ => rfl
  | cons kv t ih =>
    intro w hmt
    have hstep := flushStep_entries p mt w kv hmt
    have hnext : mt < (flushStep p w kv).treeNext := by
      rw [(flushStep_preserves p w kv).2.2.2]
      omega
    show treeEntries (storageFlush p (flushStep p w kv) t) mt =
      treeEntries w mt
    rw [ih (flushStep p w kv) hnext, hstep]

/-- The world after Update's sub-tree reopen for the checksum. -/
def updW2 (w : World) (q : Nat) : World :=
  (getStateTree (storageFlush q w (objData w q).cacheStorage) q).2

/-- The handle Update takes its checksum from. -/
def updT2 (w : World) (q : Nat) : Nat :=
  (getStateTree (storageFlush q w (objData w q).cacheStorage) q).1

/-- The storage root Update recomputes. -/
def updRoot (w : World) (q : Nat) : Bytes :=
  bytes2Hash (treeChecksum (updW2 w q) (updT2 w q))

/-- The world after Update rewrites the object's stateRoot. -/
def updW3 (w : World) (q : Nat) : World :=
  setObjData (updW2 w q) q
    { objData (updW2 w q) q with stateRoot := updRoot w q }

/-- The re-encoded record Update writes into the global tree. -/
def updRaw (w : World) (q : Nat) : Bytes :=
  encodeBytes (objView (updW3 w q) (objData (updW3 w q) q))

theorem Update_eq (w : World) (q : Nat) :
    Update w q =
      match (objData (updW3 w q) q).merkleTree with
      | some mt => treePut (updW3 w q) mt
          (sha256 (objData (updW3 w q) q).address) (updRaw w q)
      | none => updW3 w q := rfl

theorem objData_congr {w w' : World} (h : w'.objCells = w.objCells)
    (r : Nat) : objData w' r = objData w r := by
  unfold objData
  rw [h]

theorem objData_setObjData_ne (w : World) (p r : Nat) (o : ObjData)
    (h : r ≠ p) : objData (setObjData w p o) r = objData w r := by
  unfold objData setObjData
  simp [alookup_aset_ne _ _ _ _ h]

theorem updW2_objCells (w : World) (q : Nat) :
    (updW2 w q).objCells = w.objCells :=
  (storageFlush_preserves q (objData w q).cacheStorage w).2.1

theorem updW3_objData_self (w : World) (q : Nat) :
    objData (updW3 w q) q = { objData w q with stateRoot := updRoot w q } := by
  unfold updW3
  rw [objData_setObjData_self]
  rw [objData_congr (updW2_objCells w q)]

theorem updW3_objData_ne (w : World) (q r : Nat) (h : r ≠ q) :
    objData (updW3 w q) r = objData w r := by
  unfold updW3
  rw [objData_setObjData_ne _ _ _ _ h]
  exact objData_congr (updW2_objCells w q) r

theorem Update_effects (w : World) (q mt : Nat) (hmt : mt < w.treeNext) :
    (Update w q).dbCells = w.dbCells ∧
    (Update w q).intCells = w.intCells ∧
    mt < (Update w q).treeNext ∧
    (∀ r, r ≠ q → objData (Update w q) r = objData w r) ∧
    (∀ r, (objData (Update w q) r).address = (objData w r).address) ∧
    (treeEntries (Update w q) mt = treeEntries w mt ∨
     ∃ rv, treeEntries (Update w q) mt =
       aset (treeEntries w mt) (sha256 (objData w q).address) rv) := by
  obtain ⟨hdb1, hobj1, hint1, htn1⟩ :=
    storageFlush_preserves q (objData w q).cacheStorage w
  have hent1 := storageFlush_entries q mt (objData w q).cacheStorage w hmt
  have hw2tn : (updW2 w q).treeNext =
      (storageFlush q w (objData w q).cacheStorage).treeNext + 1 := rfl
  have hmt2 : mt ≠ (storageFlush q w (objData w q).cacheStorage).treeNext :=
    by omega
  have hent2 : treeEntries (updW2 w q) mt = treeEntries w mt := by
    show (alookup (aset _ (storageFlush q w
      (objData w q).cacheStorage).treeNext _) mt).getD [] = _
    rw [alookup_aset_ne _ _ _ _ hmt2]
    exact hent1
  have hent3 : treeEntries (updW3 w q) mt = treeEntries w mt := hent2
  have haddr3 : ∀ r, (objData (updW3 w q) r).address =
      (objData w r).address := by
    intro r
    by_cases hr : r = q
    · subst hr
      rw [updW3_objData_self]
    · rw [updW3_objData_ne _ _ _ hr]
  cases hmm : (objData (updW3 w q) q).merkleTree with
  | none =>
    have hU : Update w q = updW3 w q := by rw [Update_eq, hmm]
    rw [hU]
    refine ⟨hdb1, hint1, ?_, ?_, haddr3, Or.inl hent3⟩
    · show mt < (storageFlush q w (objData w q).cacheStorage).treeNext + 1
      omega
    · intro r hr
      exact updW3_objData_ne w q r hr
  | some mt' =>
    have hU : Update w q = treePut (updW3 w q) mt'
        (sha256 (objData (updW3 w q) q).address) (updRaw w q) := by
      rw [Update_eq, hmm]
    rw [hU]
    refine ⟨hdb1, hint1, ?_, ?_, ?_, ?_⟩
    · show mt < (storageFlush q w (objData w q).cacheStorage).treeNext + 1
      omega
    · intro r hr
      exact updW3_objData_ne w q r hr
    · intro r
      exact haddr3 r
    · by_cases hmt' : mt' = mt
      · subst hmt'
        right
        refine ⟨updRaw w q, ?_⟩
        show (alookup (aset (updW3 w q).treeCells mt'
            (aset (treeEntries (updW3 w q) mt')
              (sha256 (objData (updW3 w q) q).address) (updRaw w q)))
          mt').getD [] =
          aset (treeEntries w mt') (sha256 (objData w q).address)
            (updRaw w q)
        rw [alookup_aset_self]
        show aset (treeEntries (updW3 w q) mt')
            (sha256 (objData (updW3 w q) q).address) (updRaw w q) =
          aset (treeEntries w mt') (sha256 (objData w q).address)
            (updRaw w q)
        rw [hent3, haddr3 q]
      · left
        show (alookup (aset (updW3 w q).treeCells mt' _) mt).getD [] = _
        rw [alookup_aset_ne _ _ _ _ (Ne.symm hmt')]
        exact hent3

theorem sha256_inj {a b : Bytes} (h : sha256 a = sha256 b) : a = b := by
  simpa [sha256] using h

theorem checksumOf_ne_of_length {e1 e2 : List (Bytes × Bytes)}
    (h : e1.length ≠ e2.length) : checksumOf e1 ≠ checksumOf e2 := by
  intro hc
  unfold checksumOf at hc
  injection hc with h1 _
  exact h h1

theorem dbLoad_congr {w w' : World} (h : w'.dbCells = w.dbCells)
    (db : Option Nat) (root : Bytes) : dbLoad w' db root = dbLoad w db root := by
  unfold dbLoad
  rw [h]

theorem bytes2Hash_checksum_nil : bytes2Hash (checksumOf []) = hashZ := by
  decide

theorem updateFold_effects (L : List (Addr × Nat)) :
    ∀ (w : World) (mt pObj : Nat) (addr : Addr),
      mt < w.treeNext →
      (∀ pr ∈ L, pr.2 ≠ pObj) →
      (∀ pr ∈ L, (objData w pr.2).address ≠ addr) →
      (L.foldl (fun wa pr => Update wa pr.2) w).dbCells = w.dbCells ∧
      mt < (L.foldl (fun wa pr => Update wa pr.2) w).treeNext ∧
      objData (L.foldl (fun wa pr => Update wa pr.2) w) pObj =
        objData w pObj ∧
      (sha256 addr ∉ akeys (treeEntries w mt) →
        sha256 addr ∉
          akeys (treeEntries (L.foldl (fun wa pr => Update wa pr.2) w) mt)) ∧
      (treeEntries w mt).length ≤
        (treeEntries (L.foldl (fun wa pr => Update wa pr.2) w) mt).length := by
  induction L with
  | nil =>
    intro w mt pObj addr hmt _ _
    exact ⟨rfl, hmt, rfl, id, le_refl _⟩
  | cons pr0 t ih =>
    intro w mt pObj addr hmt hp haddr
    obtain ⟨edb, eint, etn, eobj, eaddr, eent⟩ := Update_effects w pr0.2 mt hmt
    have hp' : ∀ pr ∈ t, pr.2 ≠ pObj :=
      fun pr hpr => hp pr (List.mem_cons_of_mem _ hpr)
    have haddr' : ∀ pr ∈ t, (objData (Update w pr0.2) pr.2).address ≠ addr := by
      intro pr hpr
      rw [eaddr pr.2]
      exact haddr pr (List.mem_cons_of_mem _ hpr)
    obtain ⟨idb, itn, iobj, imem, ilen⟩ :=
      ih (Update w pr0.2) mt pObj addr
        ((Update_effects w pr0.2 mt hmt).2.2.1) hp' haddr'
    simp only [List.foldl_cons]
    refine ⟨idb.trans edb, itn, ?_, ?_, ?_⟩
    · rw [iobj]
      exact eobj pObj (Ne.symm (hp pr0 (List.mem_cons_self _ _)))
    · intro hmem
      apply imem
      rcases eent with heq | ⟨rv, heq⟩
      · rw [heq]
        exact hmem
      · rw [heq]
        intro hin
        rcases (akeys_aset _ _ _ _).mp hin with hk | hk
        · exact haddr pr0 (List.mem_cons_self _ _) (sha256_inj hk).symm
        · exact hmem hk
    · refine le_trans ?_ ilen
      rcases eent with heq | ⟨rv, heq⟩
      · rw [heq]
      · rw [heq]
        exact length_aset_ge _ _ _

/-- The fresh stateObject `newStateObj` installs. -/
def freshObjData (st : StateDB) (addr : Addr) : ObjData :=
  { address := addr, balance := none, nonce := 0, extra := none,
    code := none, stateRoot := hashZ, cacheStorage := [],
    db := some st.treeDB, merkleTree := some st.merkleTree }

/-- The codec view of an empty account record. -/
def emptyAccountView (addr : Addr) : AccountView :=
  { address := addr, balance := none, nonce := 0, code := none,
    stateRoot := hashZ }

theorem Update_fresh (w : World) (st : StateDB) (addr : Addr) (P : Nat)
    (hobj : objData w P = freshObjData st addr)
    (hdb : dbLoad w (some st.treeDB) hashZ = [])
    (hmt : st.merkleTree < w.treeNext) :
    treeEntries (Update w P) st.merkleTree =
      aset (treeEntries w st.merkleTree) (sha256 addr)
        (encodeBytes (emptyAccountView addr)) := by
  have hflush : storageFlush P w (objData w P).cacheStorage = w := by
    rw [hobj]
    rfl
  have hroot : updRoot w P = hashZ := by
    unfold updRoot updT2 updW2
    rw [hflush]
    unfold getStateTree
    rw [hobj]
    show bytes2Hash (checksumOf ((alookup
      (aset w.treeCells w.treeNext (dbLoad w (some st.treeDB) hashZ))
      w.treeNext).getD [])) = hashZ
    rw [alookup_aset_self, hdb]
    exact bytes2Hash_checksum_nil
  have hW3obj : objData (updW3 w P) P =
      { freshObjData st addr with stateRoot := updRoot w P } := by
    rw [updW3_objData_self, hobj]
  have hmm : (objData (updW3 w P) P).merkleTree = some st.merkleTree := by
    rw [hW3obj]
    rfl
  have haddrP : (objData (updW3 w P) P).address = addr := by
    rw [hW3obj]
    rfl
  have hraw : updRaw w P = encodeBytes (emptyAccountView addr) := by
    unfold updRaw
    rw [hW3obj, hroot]
    rfl
  have hU : Update w P = treePut (updW3 w P) st.merkleTree (sha256 addr)
      (encodeBytes (emptyAccountView addr)) := by
    rw [Update_eq, hmm, haddrP, hraw]
  have hent : treeEntries (updW3 w P) st.merkleTree =
      treeEntries w st.merkleTree := by
    show (alookup (updW2 w P).treeCells st.merkleTree).getD [] = _
    unfold updW2
    rw [hflush]
    show (alookup (aset w.treeCells w.treeNext _) st.merkleTree).getD [] = _
    rw [alookup_aset_ne _ _ _ _ (Nat.ne_of_lt hmt)]
    rfl
  rw [hU]
  show (alookup (aset (updW3 w P).treeCells st.merkleTree
    (aset (treeEntries (updW3 w P) st.merkleTree) (sha256 addr)
      (encodeBytes (emptyAccountView addr)))) st.merkleTree).getD [] = _
  rw [alookup_aset_self]
  show aset (treeEntries (updW3 w P) st.merkleTree) (sha256 addr)
    (encodeBytes (emptyAccountView addr)) = _
  rw [hent]

/-- The world after a read accessor materializes a fresh object. -/
def matW (w : World) (st : StateDB) (addr : Addr) : World :=
  { w with objCells := aset w.objCells w.objNext (freshObjData st addr),
           objNext := w.objNext + 1 }

/-- The StateDB after a read accessor materializes a fresh object. -/
def matDB (st : StateDB) (addr : Addr) (p : Nat) : StateDB :=
  { st with objs := aset st.objs addr p }

/-- C10: for an address absent from both the object cache and the global
tree, the read-only accessors GetExtra and GetStateRoot materialize a fresh
empty stateObject into the working set as a side effect: afterwards the
address is cached and HashAccount reports the account as existing, and a
subsequent UpdateAll writes the encoded empty account record for the
address into the global tree under SHA-256(address), changing the root. -/
theorem C10_read_accessors_materialize
    (w : World) (st : StateDB) (addr : Addr)
    (hc : alookup st.objs addr = none)
    (ht : treeGet w st.merkleTree (sha256 addr) = none)
    (htlt : st.merkleTree < w.treeNext)
    (hwfaddr : ∀ pr ∈ st.objs, (objData w pr.2).address = pr.1)
    (hwfp : ∀ pr ∈ st.objs, pr.2 < w.objNext)
    (hdb : dbLoad w (some st.treeDB) hashZ = []) :
    alookup (GetExtra w st addr).2.2.objs addr = some w.objNext ∧
    (HashAccount (GetExtra w st addr).2.1 (GetExtra w st addr).2.2 addr).1
      = true ∧
    alookup (GetStateRoot w st addr).2.2.objs addr = some w.objNext ∧
    (HashAccount (GetStateRoot w st addr).2.1
      (GetStateRoot w st addr).2.2 addr).1 = true ∧
    treeGet (UpdateAll (GetExtra w st addr).2.1 (GetExtra w st addr).2.2)
      st.merkleTree (sha256 addr) =
      some (encodeBytes (emptyAccountView addr)) ∧
    StateDB.Root (UpdateAll (GetExtra w st addr).2.1
      (GetExtra w st addr).2.2) (GetExtra w st addr).2.2 ≠
      StateDB.Root w st := by
  have hge2 : (GetExtra w st addr).2 =
      (matW w st addr, matDB st addr w.objNext) := by
    simp only [GetExtra, GetOrNewStateObj, GetStateObj, hc, ht]
    rfl
  have hgr2 : (GetStateRoot w st addr).2 =
      (matW w st addr, matDB st addr w.objNext) := by
    simp only [GetStateRoot, GetOrNewStateObj, GetStateObj, hc, ht]
    rfl
  simp only [hge2, hgr2]
  have hobjs : (matDB st addr w.objNext).objs =
      st.objs ++ [(addr, w.objNext)] :=
    aset_append_of_notMem _ (alookup_eq_none.mp hc)
  have hp' : ∀ pr ∈ st.objs, pr.2 ≠ w.objNext :=
    fun pr h => Nat.ne_of_lt (hwfp pr h)
  have haddr' : ∀ pr ∈ st.objs,
      (objData (matW w st addr) pr.2).address ≠ addr := by
    intro pr h
    have hobjW1 : objData (matW w st addr) pr.2 = objData w pr.2 := by
      unfold objData matW
      show (alookup (aset w.objCells w.objNext _) pr.2).getD _ = _
      rw [alookup_aset_ne _ _ _ _ (hp' pr h)]
    rw [hobjW1, hwfaddr pr h]
    intro he
    apply alookup_eq_none.mp hc
    rw [← he]
    exact List.mem_map_of_mem Prod.fst h
  have htltm : st.merkleTree < (matW w st addr).treeNext := htlt
  obtain ⟨fdb, ftn, fobj, fmem, flen⟩ :=
    updateFold_effects st.objs (matW w st addr) st.merkleTree w.objNext
      addr htltm hp' haddr'
  have hW1obj : objData (matW w st addr) w.objNext =
      freshObjData st addr := by
    unfold objData matW
    show (alookup (aset w.objCells w.objNext _) w.objNext).getD _ = _
    rw [alookup_aset_self]
    rfl
  have hUP := Update_fresh _ st addr w.objNext (fobj.trans hW1obj)
    ((dbLoad_congr (fdb.trans rfl) _ _).trans hdb) ftn
  refine ⟨?_, ?_, ?_, ?_, ?_, ?_⟩
  · exact alookup_aset_self _ _ _
  · simp only [HashAccount, GetStateObj, matDB, alookup_aset_self]
  · exact alookup_aset_self _ _ _
  · simp only [HashAccount, GetStateObj, matDB, alookup_aset_self]
  · simp only [UpdateAll, hobjs, List.foldl_append, List.foldl_cons,
      List.foldl_nil]
    simp only [treeGet, hUP, alookup_aset_self]
  · simp only [UpdateAll, hobjs, List.foldl_append, List.foldl_cons,
      List.foldl_nil]
    show checksumOf (treeEntries _ st.merkleTree) ≠
      checksumOf (treeEntries w st.merkleTree)
    rw [hUP]
    apply checksumOf_ne_of_length
    have habsent0 : sha256 addr ∉
        akeys (treeEntries (matW w st addr) st.merkleTree) := by
      show sha256 addr ∉ akeys (treeEntries w st.merkleTree)
      exact alookup_eq_none.mp ht
    have habsent := fmem habsent0
    rw [length_aset_notMem _ _ _ habsent]
    have hlen : (treeEntries w st.merkleTree).length ≤
        (treeEntries (st.objs.foldl (fun wa pr => Update wa pr.2)
          (matW w st addr)) st.merkleTree).length := flen
    omega

/-- World with an empty object heap for the C10 witness. -/
def exWorldFresh : World :=
  { intCells := [(0, 0)], intNext := 1, objCells := [], objNext := 0,
    treeCells := [(0, [])], treeNext := 1, dbCells := [(0, [])] }

/-- Witness for C10 at a concrete world and the absent address 5. -/
theorem C10_read_accessors_witness :
    alookup (GetExtra exWorldFresh exDBEmpty [5]).2.2.objs [5] =
      some exWorldFresh.objNext ∧
    (HashAccount (GetExtra exWorldFresh exDBEmpty [5]).2.1
      (GetExtra exWorldFresh exDBEmpty [5]).2.2 [5]).1 = true ∧
    alookup (GetStateRoot exWorldFresh exDBEmpty [5]).2.2.objs [5] =
      some exWorldFresh.objNext ∧
    (HashAccount (GetStateRoot exWorldFresh exDBEmpty [5]).2.1
      (GetStateRoot exWorldFresh exDBEmpty [5]).2.2 [5]).1 = true ∧
    treeGet (UpdateAll (GetExtra exWorldFresh exDBEmpty [5]).2.1
      (GetExtra exWorldFresh exDBEmpty [5]).2.2)
      exDBEmpty.merkleTree (sha256 [5]) =
      some (encodeBytes (emptyAccountView [5])) ∧
    StateDB.Root (UpdateAll (GetExtra exWorldFresh exDBEmpty [5]).2.1
      (GetExtra exWorldFresh exDBEmpty [5]).2.2)
      (GetExtra exWorldFresh exDBEmpty [5]).2.2 ≠
      StateDB.Root exWorldFresh exDBEmpty :=
  C10_read_accessors_materialize exWorldFresh exDBEmpty [5]
    (by decide) (by decide) (by decide) (by decide) (by decide) (by decide)

end XfsState
